import Mathlib

/-!
# Tea-leaf disease client: the upload, predict and display pipeline

A shallow embedding of the two React views that carry the pipeline,
`pages/Home/Home.jsx` (capture and submission) and
`pages/Results/Results.jsx` (interpretation and display), with the
properties of the specification stated over it.

Conventions of the embedding.

* A JavaScript value that may be `null` or `undefined` is an `Option`.
* A prediction entry is an object `{ name, confidence, description? }`; the
  confidence is a number that arrived in a JSON body, hence never `NaN`, and
  is embedded as a rational.  For such numbers the sign of the floating
  point difference `b.confidence - a.confidence` is the sign of the exact
  difference, which is all the comparator of `sort` is used for.
* Arrays are mutable objects: they live in a `Store` and are handled by
  address, so that sorting in place and copying are different operations.
* `String.prototype.toUpperCase` and `toLowerCase` consult the case tables
  of the JavaScript runtime; the tables are parameters of the embedding and
  `asciiUpper`, `asciiLower` are their restrictions to ASCII.
-/

namespace TeaLeaf

/-! ## Data model -/

/-- One entry of the `predictions` array of a prediction response. -/
structure Prediction where
  name : String
  confidence : ℚ
  description : Option String
  deriving DecidableEq

/-- Body of a successful prediction response; `predictions` may be absent. -/
structure Response where
  predictions : Option (List Prediction)
  deriving DecidableEq

/-- Value returned by `processResult`: `primaryDisease` may be `null`. -/
structure DiagnosisView where
  primaryDisease : Option Prediction
  otherDiseases : List Prediction
  deriving DecidableEq

/-! ## Arrays as mutable objects -/

/-- Address of an array object. -/
abbrev Addr := Nat

/-- The array objects allocated so far, indexed by address. -/
structure Store where
  arrays : List (List Prediction)
  deriving DecidableEq

/-- Allocation of a fresh array object holding `xs`. -/
def Store.alloc (σ : Store) (xs : List Prediction) : Addr × Store :=
  (σ.arrays.length, ⟨σ.arrays ++ [xs]⟩)

/-- Contents of the array object at address `a`. -/
def Store.read (σ : Store) (a : Addr) : List Prediction :=
  σ.arrays.getD a []

/-- Overwriting of the contents of the array object at address `a`. -/
def Store.write (σ : Store) (a : Addr) (xs : List Prediction) : Store :=
  ⟨σ.arrays.set a xs⟩

/-! ## `Array.prototype.sort` -/

/-- Insertion of `x` in front of a list it originally preceded: `x` moves
behind `y` only when the comparator is positive on `(x, y)`. -/
def insertByCompare {α : Type} (cmp : α → α → ℚ) (x : α) : List α → List α
  | [] => [x]
  | y :: ys => if cmp x y ≤ 0 then x :: y :: ys else y :: insertByCompare cmp x ys

/-- The result of `Array.prototype.sort(cmp)`: a stable sort, here by
insertion from the right. -/
def arraySort {α : Type} (cmp : α → α → ℚ) : List α → List α
  | [] => []
  | x :: xs => insertByCompare cmp x (arraySort cmp xs)

/-! ## Results view: `processResult` -/

/-- The comparator `(a, b) => b.confidence - a.confidence` (Results.jsx:46). -/
def compareConfidence (a b : Prediction) : ℚ :=
  b.confidence - a.confidence

/-- The placeholder object literal of Results.jsx:49-53. -/
def unknownDisease : Prediction :=
  { name := "Unknown"
    confidence := 0
    description := some "Unable to determine the condition of the leaf." }

/-- The body of `processResult` (Results.jsx:39-59) over the store.  The
argument is `none` for an absent `resultData`, `some none` for a response
without `predictions`, and `some (some a)` when `predictions` is the array at
address `a`.  The result is `primaryDisease` and the address of
`otherDiseases`, with the store after the call. -/
def processResultRef (σ : Store) (resultData : Option (Option Addr)) :
    (Option Prediction × Addr) × Store :=
  match resultData with
  | none =>
    -- `if (!resultData) return { primaryDisease: null, otherDiseases: [] }`
    let r := σ.alloc []
    ((none, r.1), r.2)
  | some field =>
    -- `resultData.predictions || []`
    let p : Addr × Store :=
      match field with
      | some a => (a, σ)
      | none => σ.alloc []
    -- `[...predictions]`
    let c := p.2.alloc (p.2.read p.1)
    -- `.sort((a, b) => b.confidence - a.confidence)`, in place on the copy
    let σ₃ := c.2.write c.1 (arraySort compareConfidence (c.2.read c.1))
    let sortedPredictions := c.1
    -- `sortedPredictions[0] || { name: 'Unknown', ... }`
    let primaryDisease := ((σ₃.read sortedPredictions).head?).getD unknownDisease
    -- `sortedPredictions.slice(1)`
    let o := σ₃.alloc ((σ₃.read sortedPredictions).drop 1)
    ((some primaryDisease, o.1), o.2)

/-- The store in which `processResult` is called on a response value: the
`predictions` array, when there is one, is the only object, at address 0. -/
def initialStore (resultData : Option Response) : Store :=
  match resultData with
  | some ⟨some ps⟩ => ⟨[ps]⟩
  | _ => ⟨[]⟩

/-- The reference form of a response value in `initialStore`. -/
def refOf (resultData : Option Response) : Option (Option Addr) :=
  resultData.map fun r => r.predictions.map fun _ => 0

/-- Function `processResult` of Results.jsx:39-59, on values. -/
def processResult (resultData : Option Response) : DiagnosisView :=
  let out := processResultRef (initialStore resultData) (refOf resultData)
  { primaryDisease := out.1.1, otherDiseases := out.2.read out.1.2 }

/-- Contents of the caller's `predictions` array after `processResult` has
returned. -/
def predictionsAfter (ps : List Prediction) : List Prediction :=
  (processResultRef (initialStore (some ⟨some ps⟩)) (refOf (some ⟨some ps⟩))).2.read 0

/-- Order of the display: confidence does not increase from left to right. -/
def ConfidenceDescending (l : List Prediction) : Prop :=
  l.Pairwise fun a b => b.confidence ≤ a.confidence

/-- The entries of `l` whose confidence is `c`, in the order of `l`. -/
def withConfidence (c : ℚ) (l : List Prediction) : List Prediction :=
  l.filter fun p => decide (p.confidence = c)

/-- Specification side of the interpreter: the stable sort of the
predictions by confidence, descending, as the library merge sort. -/
def stableSortByConfidence (l : List Prediction) : List Prediction :=
  l.mergeSort fun a b => decide (b.confidence ≤ a.confidence)

/-- A list of three predictions with a tie, used to exercise the
interpreter. -/
def samplePredictions : List Prediction :=
  [ { name := "anthracnose", confidence := 1 / 4, description := none },
    { name := "healthy", confidence := 1 / 2, description := none },
    { name := "brown_blight", confidence := 1 / 4, description := none } ]

/-! ## Results view: `getDiseaseDescription` -/

/-- Values that `getDiseaseDescription` can return: a string, or a member
that the `descriptions` object literal inherits from `Object.prototype`
(a function or an object, never a string). -/
inductive JSValue where
  | string (s : String)
  | inherited (property : String)
  deriving DecidableEq

/-- Own properties of the object literal `descriptions` (Results.jsx:67-73). -/
def descriptions : List (String × String) :=
  [ ("healthy", "Your tea leaf appears to be healthy with no signs of disease."),
    ("red_leaf_spot",
      "Red leaf spot is a fungal disease that causes small red or brown spots on the leaves."),
    ("brown_blight",
      "Brown blight causes irregular brown patches on the leaves and can affect plant health."),
    ("algal_leaf_spot", "Algal leaf spot appears as small, raised spots with a velvety texture."),
    ("anthracnose", "Anthracnose causes dark, sunken lesions on leaves and stems.") ]

/-- Property names of `Object.prototype`, the prototype of every object
literal. -/
def objectPrototypeKeys : List String :=
  [ "constructor", "__defineGetter__", "__defineSetter__", "hasOwnProperty",
    "__lookupGetter__", "__lookupSetter__", "isPrototypeOf", "propertyIsEnumerable",
    "toString", "valueOf", "__proto__", "toLocaleString" ]

/-- Property access `descriptions[key]`: own properties first, then the
prototype; `none` is `undefined`. -/
def descriptionsGet (key : String) : Option JSValue :=
  match descriptions.lookup key with
  | some sentence => some (.string sentence)
  | none => if key ∈ objectPrototypeKeys then some (.inherited key) else none

/-- Truthiness of an optional string: absent and empty strings are falsy. -/
def truthy (s : Option String) : Bool :=
  match s with
  | some v => v != ""
  | none => false

/-- The expression `a || b` for an optional string `a`. -/
def orElse (a : Option String) (b : String) : String :=
  match a with
  | some v => if v = "" then b else v
  | none => b

/-- The template literal of Results.jsx:75. -/
def caseOfSentence (name : String) : String :=
  "This appears to be a case of " ++ name ++ "."

/-- Function `getDiseaseDescription` of Results.jsx:64-76.  Every value
stored in or inherited by `descriptions` is truthy, so the template is
reached exactly when the property access gives `undefined`. -/
def getDiseaseDescription (toLowerCase : String → String) (disease : Prediction) : JSValue :=
  if truthy disease.description then
    .string (disease.description.getD "")
  else
    match descriptionsGet (toLowerCase disease.name) with
    | some v => v
    | none => .string (caseOfSentence disease.name)

/-- The lower-case table of the runtime restricted to ASCII. -/
def asciiLower (s : String) : String :=
  ⟨s.data.map Char.toLower⟩

/-! ## Results view: the label expression of lines 100 and 137 -/

/-- The segments of `String.prototype.split(sep)` for a one-character
separator; the empty string has one empty segment. -/
def split (sep : Char) : List Char → List (List Char)
  | [] => [[]]
  | c :: cs =>
    if c = sep then [] :: split sep cs
    else
      match split sep cs with
      | [] => [[c]]
      | seg :: rest => (c :: seg) :: rest

/-- The arrow function `word => word.charAt(0).toUpperCase() + word.slice(1)`;
`toUpperCase` gives the upper-case form of one character, which may be
several characters long. -/
def capitalizeWord (toUpperCase : Char → List Char) (word : List Char) : List Char :=
  (word.take 1).flatMap toUpperCase ++ word.drop 1

/-- The result of `Array.prototype.join(sep)`. -/
def join (sep : List Char) : List (List Char) → List Char
  | [] => []
  | [w] => w
  | w :: ws => w ++ sep ++ join sep ws

/-- The expression
`name.split('_').map(word => word.charAt(0).toUpperCase() + word.slice(1)).join(' ')`
of Results.jsx:100 and 137. -/
def formatLabel (toUpperCase : Char → List Char) (name : String) : String :=
  ⟨join [' '] ((split '_' name.data).map (capitalizeWord toUpperCase))⟩

/-- Specification side of the label formatter: upper-case form of the first
character of a segment, followed by the rest of the segment unchanged. -/
def capitalizeSegment (toUpperCase : Char → List Char) : List Char → List Char
  | [] => []
  | c :: rest => toUpperCase c ++ rest

/-- Specification side of the label formatter: split on underscores,
capitalize every segment, join with single spaces, with the library
operations on lists. -/
def formatLabelSpec (toUpperCase : Char → List Char) (name : String) : String :=
  ⟨[' '].intercalate ((name.data.splitOn '_').map (capitalizeSegment toUpperCase))⟩

/-- The upper-case table of the runtime restricted to ASCII. -/
def asciiUpper (c : Char) : List Char :=
  [c.toUpper]

/-- A case table that agrees with the ASCII one on ASCII characters. -/
def ExtendsAscii (toUpperCase : Char → List Char) : Prop :=
  ∀ c : Char, c.toNat < 128 → toUpperCase c = [c.toUpper]

/-- A case table whose results start with a character that is its own
upper-case form, and that never produces an underscore from another
character. -/
def UpperStable (toUpperCase : Char → List Char) : Prop :=
  toUpperCase ' ' = [' '] ∧
  ∀ c : Char, c ≠ '_' →
    ∃ d ds, toUpperCase c = d :: ds ∧ toUpperCase d = [d] ∧ '_' ∉ d :: ds

/-! ## Navigation between the views -/

/-- The `state` object attached to a navigation (Home.jsx:40-45); a field is
`none` when it is missing or falsy. -/
structure LocationState where
  result : Option Response
  imagePreview : Option String
  deriving DecidableEq

/-- One call of `navigate(path, { state })`. -/
structure Navigation where
  path : String
  state : Option LocationState
  deriving DecidableEq

/-! ## Capture view: `Home.jsx` -/

/-- A file picked in the file input. -/
structure File where
  name : String
  deriving DecidableEq

/-- The three `useState` cells of `Home` (Home.jsx:7-9). -/
structure HomeState where
  selectedImage : Option File
  preview : String
  isLoading : Bool
  deriving DecidableEq

/-- The error object caught by `handleSubmit`, as axios builds it:
`response.data` is the parsed body (`none` when it is `null`), and a body
carries an optional `error` field. -/
structure ErrorBody where
  error : Option String
  deriving DecidableEq

/-- The `response` member of an axios error. -/
structure ErrorResponse where
  status : Nat
  data : Option ErrorBody
  deriving DecidableEq

/-- An axios error: `request` tells whether the member is present. -/
structure AxiosError where
  response : Option ErrorResponse
  request : Bool
  message : String
  deriving DecidableEq

/-- Lines written to the console by `handleSubmit`, one constructor for each
call site. -/
inductive ConsoleEntry where
  | sendingRequest
  | responseFromBackend
  | errorUploading
  | errorResponseData
  | errorStatus (status : Nat)
  | noResponseReceived
  | errorMessage (message : String)
  deriving DecidableEq

/-- The initial value of `errorMessage` (Home.jsx:48). -/
def genericErrorMessage : String :=
  "Error processing image. Please try again."

/-- The message of the branch without a response (Home.jsx:59). -/
def noResponseMessage : String :=
  "No response from server. Please check if the backend is running."

/-- What the `catch` block did: the console lines, and the argument of
`alert`, which is `none` when the block threw before reaching it. -/
structure CatchOutcome where
  console : List ConsoleEntry
  alert : Option String
  deriving DecidableEq

/-- The `catch` block of `handleSubmit` (Home.jsx:46-65). -/
def handleSubmitCatch (error : AxiosError) : CatchOutcome :=
  let errorMessage := genericErrorMessage
  match error.response with
  | some response =>
    match response.data with
    | some data =>
      -- `errorMessage = error.response.data.error || errorMessage`
      { console := [.errorUploading, .errorResponseData, .errorStatus response.status]
        alert := some (orElse data.error errorMessage) }
    | none =>
      -- reading `.error` of a `null` body throws a TypeError
      { console := [.errorUploading, .errorResponseData, .errorStatus response.status]
        alert := none }
  | none =>
    if error.request then
      { console := [.errorUploading, .noResponseReceived]
        alert := some noResponseMessage }
    else
      { console := [.errorUploading, .errorMessage error.message]
        alert := some errorMessage }

/-- The request built by `handleSubmit` (Home.jsx:24-35): a POST of a form
with the single field `image`. -/
structure PredictRequest where
  url : String
  image : File
  deriving DecidableEq

/-- A call of `handleSubmit` suspended at `await`: the request it issued and
the `preview` its closure holds. -/
structure Pending where
  request : PredictRequest
  preview : String
  deriving DecidableEq

/-- The capture view with everything it has done to the outside: requests
awaiting an answer, navigations, alerts and console lines. -/
structure HomeSys where
  view : HomeState
  pending : List Pending
  navigations : List Navigation
  alerts : List String
  console : List ConsoleEntry
  deriving DecidableEq

/-- The freshly mounted capture view. -/
def HomeSys.initial : HomeSys :=
  { view := { selectedImage := none, preview := "", isLoading := false }
    pending := [], navigations := [], alerts := [], console := [] }

/-- Function `handleImageChange` of Home.jsx:12-18; `url` is the value of
`URL.createObjectURL(file)`. -/
def handleImageChange (file : Option File) (url : String) (s : HomeSys) : HomeSys :=
  match file with
  | some f => { s with view := { s.view with selectedImage := some f, preview := url } }
  | none => s

/-- Function `handleSubmit` of Home.jsx:20-35, up to the `await`. -/
def handleSubmit (s : HomeSys) : HomeSys :=
  match s.view.selectedImage with
  | none => s
  | some image =>
    { s with
      view := { s.view with isLoading := true }
      console := s.console ++ [.sendingRequest]
      pending := s.pending ++
        [{ request := { url := "http://localhost:5000/predict", image := image }
           preview := s.view.preview }] }

/-- The attribute `disabled={!selectedImage || isLoading}` of the submit
button (Home.jsx:109). -/
def submitDisabled (v : HomeState) : Bool :=
  v.selectedImage.isNone || v.isLoading

/-- Activation of the submit button: the form's `onSubmit` handler runs only
when the button is not disabled. -/
def clickSubmit (s : HomeSys) : HomeSys :=
  if submitDisabled s.view then s else handleSubmit s

/-- Function `handleSubmit` of Home.jsx:36-68, from the `await` on, for the
oldest suspended call: `outcome` is the body of a successful response or the
error thrown by axios. -/
def handleSubmitResume (outcome : Except AxiosError (Option Response)) (s : HomeSys) : HomeSys :=
  match s.pending with
  | [] => s
  | p :: rest =>
    match outcome with
    | .ok data =>
      { view := { s.view with isLoading := false }
        pending := rest
        navigations := s.navigations ++
          [{ path := "/results"
             state := some { result := data, imagePreview := if p.preview = "" then none else some p.preview } }]
        alerts := s.alerts
        console := s.console ++ [.responseFromBackend] }
    | .error e =>
      { view := { s.view with isLoading := false }
        pending := rest
        navigations := s.navigations
        alerts := s.alerts ++ (handleSubmitCatch e).alert.toList
        console := s.console ++ (handleSubmitCatch e).console }

/-- What can happen to the capture view. -/
inductive HomeEvent where
  | imageChange (file : Option File) (url : String)
  | submit
  | settle (outcome : Except AxiosError (Option Response))

/-- One step of the capture view. -/
def HomeSys.step (s : HomeSys) : HomeEvent → HomeSys
  | .imageChange file url => handleImageChange file url s
  | .submit => clickSubmit s
  | .settle outcome => handleSubmitResume outcome s

/-- The state of the capture view after a sequence of events. -/
def HomeSys.run (s : HomeSys) (events : List HomeEvent) : HomeSys :=
  events.foldl HomeSys.step s

/-- The loading flag counts the suspended calls of `handleSubmit`. -/
def PendingMatchesLoading (s : HomeSys) : Prop :=
  s.pending.length = if s.view.isLoading then 1 else 0

/-- A capture view with an image selected and a submission outstanding. -/
def loadingHome : HomeSys :=
  HomeSys.initial.run [.imageChange (some ⟨"leaf.jpg"⟩) "blob:leaf", .submit]

/-! ## Display view: `Results.jsx` -/

/-- The three `useState` cells of `Results` (Results.jsx:8-10). -/
structure ResultsState where
  result : Option Response
  loading : Bool
  imagePreview : String
  deriving DecidableEq

/-- The freshly mounted display view. -/
def ResultsState.initial : ResultsState :=
  { result := none, loading := true, imagePreview := "" }

/-- The effect of Results.jsx:12-23 for the navigation state `location`: the
new state, and the target of `navigate` when it is called. -/
def resultsEffect (location : Option LocationState) (s : ResultsState) :
    ResultsState × Option String :=
  match location with
  | some st =>
    match st.result with
    | some r =>
      ({ result := some r, loading := false, imagePreview := orElse st.imagePreview "" }, none)
    | none => (s, some "/")
  | none => (s, some "/")

/-- What `Results` returns: the spinner of lines 29-36, or the diagnosis
markup built from `processResult(result)`. -/
inductive Rendered where
  | spinner
  | diagnosis (view : DiagnosisView) (imagePreview : String)
  deriving DecidableEq

/-- The render of `Results` (Results.jsx:29-61). -/
def render (s : ResultsState) : Rendered :=
  if s.loading then .spinner else .diagnosis (processResult s.result) s.imagePreview

/-- Entry into the display view: mount, then the effect. -/
def enterResults (location : Option LocationState) : ResultsState × Option String :=
  resultsEffect location ResultsState.initial

/-- The states of the display view: the mounted one, and those the effect
leads to, for any navigation state. -/
inductive ResultsReachable : ResultsState → Prop where
  | mount : ResultsReachable ResultsState.initial
  | effect (location : Option LocationState) (s : ResultsState) :
      ResultsReachable s → ResultsReachable (resultsEffect location s).1

/-! ## Lemmas on the model of `Array.prototype.sort` -/

theorem insertByCompare_perm {α : Type} (cmp : α → α → ℚ) (x : α) (l : List α) :
    (insertByCompare cmp x l).Perm (x :: l) := by
  induction l with
  | nil => exact List.Perm.refl _
  | cons y ys ih =>
    simp only [insertByCompare]
    split
    · exact List.Perm.refl _
    · exact (List.Perm.cons y ih).trans (List.Perm.swap x y ys)

theorem arraySort_perm {α : Type} (cmp : α → α → ℚ) (l : List α) :
    (arraySort cmp l).Perm l := by
  induction l with
  | nil => exact List.Perm.refl _
  | cons x xs ih =>
    simp only [arraySort]
    exact (insertByCompare_perm cmp x _).trans (List.Perm.cons x ih)

theorem insertByCompare_descending (x : Prediction) (l : List Prediction)
    (h : ConfidenceDescending l) :
    ConfidenceDescending (insertByCompare compareConfidence x l) := by
  induction l with
  | nil => simp [insertByCompare, ConfidenceDescending]
  | cons y ys ih =>
    unfold ConfidenceDescending at h ih ⊢
    rw [List.pairwise_cons] at h
    simp only [insertByCompare]
    split
    · rename_i hle
      have hyx : y.confidence ≤ x.confidence := by
        simpa [compareConfidence] using hle
      refine List.pairwise_cons.mpr ⟨?_, List.pairwise_cons.mpr h⟩
      intro z hz
      rcases List.mem_cons.mp hz with rfl | hz
      · exact hyx
      · exact le_trans (h.1 z hz) hyx
    · rename_i hgt
      have hxy : x.confidence ≤ y.confidence := by
        have : ¬ (y.confidence - x.confidence ≤ 0) := by simpa [compareConfidence] using hgt
        linarith [lt_of_not_le this]
      refine List.pairwise_cons.mpr ⟨?_, ih h.2⟩
      intro z hz
      rcases List.mem_cons.mp ((insertByCompare_perm _ x ys).mem_iff.mp hz) with rfl | hz
      · exact hxy
      · exact h.1 z hz

theorem arraySort_descending (l : List Prediction) :
    ConfidenceDescending (arraySort compareConfidence l) := by
  induction l with
  | nil => simp [arraySort, ConfidenceDescending]
  | cons x xs ih => exact insertByCompare_descending x _ ih

theorem withConfidence_insertByCompare (c : ℚ) (x : Prediction) (l : List Prediction) :
    withConfidence c (insertByCompare compareConfidence x l) = withConfidence c (x :: l) := by
  induction l with
  | nil => simp [insertByCompare]
  | cons y ys ih =>
    simp only [insertByCompare]
    split
    · rfl
    · rename_i hgt
      have hxy : x.confidence < y.confidence := by
        have : ¬ (y.confidence - x.confidence ≤ 0) := by simpa [compareConfidence] using hgt
        linarith [lt_of_not_le this]
      unfold withConfidence at ih ⊢
      rw [List.filter_cons, ih]
      by_cases hx : x.confidence = c
      · have hy : ¬ y.confidence = c := by intro hy; rw [hx, hy] at hxy; exact lt_irrefl _ hxy
        simp [List.filter_cons, hx, hy]
      · simp [List.filter_cons, hx]

theorem withConfidence_arraySort (c : ℚ) (l : List Prediction) :
    withConfidence c (arraySort compareConfidence l) = withConfidence c l := by
  induction l with
  | nil => rfl
  | cons x xs ih =>
    simp only [arraySort]
    rw [withConfidence_insertByCompare]
    unfold withConfidence at ih ⊢
    simp [List.filter_cons, ih]

/-- Two confidence-descending lists with the same entries, in the same
order, at every confidence value are the same list. -/
theorem descending_unique (l₁ l₂ : List Prediction)
    (h₁ : ConfidenceDescending l₁) (h₂ : ConfidenceDescending l₂)
    (h : ∀ c, withConfidence c l₁ = withConfidence c l₂) : l₁ = l₂ := by
  induction l₁ generalizing l₂ with
  | nil =>
    cases l₂ with
    | nil => rfl
    | cons b t =>
      have := h b.confidence
      simp [withConfidence, List.filter_cons] at this
  | cons a s ih =>
    cases l₂ with
    | nil =>
      have := h a.confidence
      simp [withConfidence, List.filter_cons] at this
    | cons b t =>
      unfold ConfidenceDescending at h₁ h₂
      rw [List.pairwise_cons] at h₁ h₂
      have hab : a.confidence ≤ b.confidence := by
        have hmem : a ∈ withConfidence a.confidence (b :: t) := by
          rw [← h a.confidence]; simp [withConfidence]
        have : a ∈ b :: t := (List.mem_filter.mp hmem).1
        rcases List.mem_cons.mp this with rfl | hm
        · exact le_refl _
        · exact h₂.1 a hm
      have hba : b.confidence ≤ a.confidence := by
        have hmem : b ∈ withConfidence b.confidence (a :: s) := by
          rw [h b.confidence]; simp [withConfidence]
        have : b ∈ a :: s := (List.mem_filter.mp hmem).1
        rcases List.mem_cons.mp this with rfl | hm
        · exact le_refl _
        · exact h₁.1 b hm
      have hc : a.confidence = b.confidence := le_antisymm hab hba
      have h0 := h a.confidence
      simp only [withConfidence, List.filter_cons, hc, decide_True, if_true] at h0
      have hhead : a = b := (List.cons.inj h0).1
      subst hhead
      congr 1
      apply ih t h₁.2 h₂.2
      intro c
      have hc' := h c
      unfold withConfidence at hc' ⊢
      simp only [List.filter_cons] at hc'
      split at hc'
      · exact (List.cons.inj hc').2
      · exact hc'

/-! ## Lemmas on the library merge sort at the confidence order -/

theorem withConfidence_stableSort (c : ℚ) (l : List Prediction) :
    withConfidence c (stableSortByConfidence l) = withConfidence c l := by
  have htrans : ∀ a b d : Prediction,
      decide (b.confidence ≤ a.confidence) = true → decide (d.confidence ≤ b.confidence) = true →
        decide (d.confidence ≤ a.confidence) = true := by
    intro a b d hab hbd
    simp only [decide_eq_true_eq] at hab hbd ⊢
    exact le_trans hbd hab
  have htotal : ∀ a b : Prediction,
      (decide (b.confidence ≤ a.confidence) || decide (a.confidence ≤ b.confidence)) = true := by
    intro a b
    simp only [Bool.or_eq_true, decide_eq_true_eq]
    exact le_total _ _
  have hpw : (withConfidence c l).Pairwise
      fun a b => decide (b.confidence ≤ a.confidence) = true := by
    rw [List.pairwise_iff_forall_sublist]
    intro a b hab
    have ha : a ∈ withConfidence c l := hab.subset (by simp)
    have hb : b ∈ withConfidence c l := hab.subset (by simp)
    have ha' : a.confidence = c := by simpa using (List.mem_filter.mp ha).2
    have hb' : b.confidence = c := by simpa using (List.mem_filter.mp hb).2
    simp [ha', hb']
  have hsub : (withConfidence c l).Sublist (stableSortByConfidence l) :=
    List.sublist_mergeSort htrans htotal hpw (List.filter_sublist l)
  have hsub' : (withConfidence c l).Sublist (withConfidence c (stableSortByConfidence l)) := by
    have := hsub.filter fun p => decide (p.confidence = c)
    simpa [withConfidence, List.filter_filter] using this
  have hperm : (withConfidence c (stableSortByConfidence l)).Perm (withConfidence c l) :=
    (List.mergeSort_perm l _).filter _
  exact (hsub'.eq_of_length hperm.length_eq.symm).symm

theorem stableSort_descending (l : List Prediction) :
    ConfidenceDescending (stableSortByConfidence l) := by
  have htrans : ∀ a b d : Prediction,
      decide (b.confidence ≤ a.confidence) = true → decide (d.confidence ≤ b.confidence) = true →
        decide (d.confidence ≤ a.confidence) = true := by
    intro a b d hab hbd
    simp only [decide_eq_true_eq] at hab hbd ⊢
    exact le_trans hbd hab
  have htotal : ∀ a b : Prediction,
      (decide (b.confidence ≤ a.confidence) || decide (a.confidence ≤ b.confidence)) = true := by
    intro a b
    simp only [Bool.or_eq_true, decide_eq_true_eq]
    exact le_total _ _
  have := List.sorted_mergeSort htrans htotal l
  unfold ConfidenceDescending stableSortByConfidence
  exact this.imp fun h => by simpa using h

theorem arraySort_eq_stableSort (l : List Prediction) :
    arraySort compareConfidence l = stableSortByConfidence l :=
  descending_unique _ _ (arraySort_descending l) (stableSort_descending l) fun c => by
    rw [withConfidence_arraySort, withConfidence_stableSort]

/-! ## The interpreter on each shape of response -/

theorem processResult_some_some (ps : List Prediction) :
    processResult (some ⟨some ps⟩) =
      { primaryDisease := some (((arraySort compareConfidence ps).head?).getD unknownDisease)
        otherDiseases := (arraySort compareConfidence ps).drop 1 } := by
  simp [processResult, processResultRef, initialStore, refOf, Store.alloc, Store.read,
    Store.write]

theorem processResult_some_none :
    processResult (some ⟨none⟩) =
      { primaryDisease := some unknownDisease, otherDiseases := [] } := by
  simp [processResult, processResultRef, initialStore, refOf, Store.alloc, Store.read,
    Store.write, arraySort]

theorem processResult_none :
    processResult none = { primaryDisease := none, otherDiseases := [] } := by
  simp [processResult, processResultRef, initialStore, refOf, Store.alloc, Store.read,
    Store.write]

theorem predictionsAfter_eq (ps : List Prediction) : predictionsAfter ps = ps := by
  simp [predictionsAfter, processResultRef, initialStore, refOf, Store.alloc, Store.read,
    Store.write]

theorem arraySort_cons_exists (ps : List Prediction) (h : ps ≠ []) :
    ∃ p rest, arraySort compareConfidence ps = p :: rest := by
  cases hs : arraySort compareConfidence ps with
  | nil =>
    have := (arraySort_perm compareConfidence ps).length_eq
    rw [hs] at this
    exact absurd (List.length_eq_zero.mp this.symm) h
  | cons p rest => exact ⟨p, rest, rfl⟩

/-! ## The claims on `processResult` -/

/-- C1: for a non-empty predictions list, `processResult` returns a primary
disease, taken from the list, whose confidence is at least the confidence of
every entry of `otherDiseases`, and `otherDiseases` is ordered by
non-increasing confidence. -/
theorem processResult_primary_dominates (ps : List Prediction) (h : ps ≠ []) :
    ∃ p, (processResult (some ⟨some ps⟩)).primaryDisease = some p ∧ p ∈ ps ∧
      (∀ q ∈ (processResult (some ⟨some ps⟩)).otherDiseases, q.confidence ≤ p.confidence) ∧
      ConfidenceDescending (processResult (some ⟨some ps⟩)).otherDiseases := by
  obtain ⟨p, rest, hs⟩ := arraySort_cons_exists ps h
  have hd := arraySort_descending ps
  rw [hs] at hd
  unfold ConfidenceDescending at hd
  rw [List.pairwise_cons] at hd
  have hmem : p ∈ ps := (arraySort_perm compareConfidence ps).mem_iff.mp (by rw [hs]; simp)
  refine ⟨p, ?_, hmem, ?_, ?_⟩
  · simp [processResult_some_some, hs]
  · simpa [processResult_some_some, hs] using hd.1
  · simpa [processResult_some_some, hs, ConfidenceDescending] using hd.2

/-- Witness of C1 on the sample list. -/
theorem processResult_primary_dominates_witness :
    samplePredictions ≠ [] ∧
    ∃ p, (processResult (some ⟨some samplePredictions⟩)).primaryDisease = some p ∧
      p ∈ samplePredictions ∧
      (∀ q ∈ (processResult (some ⟨some samplePredictions⟩)).otherDiseases,
        q.confidence ≤ p.confidence) ∧
      ConfidenceDescending (processResult (some ⟨some samplePredictions⟩)).otherDiseases :=
  ⟨List.cons_ne_nil _ _, processResult_primary_dominates samplePredictions (List.cons_ne_nil _ _)⟩

/-- C2, as stated, fails: for an absent response `processResult` returns a
`null` primary disease, not the "Unknown" placeholder. -/
theorem processResult_absent_not_unknown :
    processResult none ≠ { primaryDisease := some unknownDisease, otherDiseases := [] } := by
  rw [processResult_none]
  intro h
  exact Option.noConfusion (congrArg DiagnosisView.primaryDisease h)

/-- C2, amended: for a response that is present and whose `predictions` field
is absent or empty, `processResult` returns the "Unknown" placeholder with
confidence 0 and the fixed fallback text, and no other diseases; for an
absent response it returns a `null` primary disease and no other diseases. -/
theorem processResult_without_predictions (r : Response)
    (h : r.predictions = none ∨ r.predictions = some []) :
    processResult (some r) =
        { primaryDisease := some
            { name := "Unknown", confidence := 0
              description := some "Unable to determine the condition of the leaf." }
          otherDiseases := [] } ∧
      processResult none = { primaryDisease := none, otherDiseases := [] } := by
  refine ⟨?_, processResult_none⟩
  obtain ⟨preds⟩ := r
  rcases h with h | h
  · simp only at h
    subst h
    exact processResult_some_none
  · simp only at h
    subst h
    simp [processResult_some_some, arraySort, unknownDisease]

/-- Witness of the amended C2 on the response with an empty list. -/
theorem processResult_without_predictions_witness :
    ((⟨some []⟩ : Response).predictions = none ∨ (⟨some []⟩ : Response).predictions = some []) ∧
    processResult (some ⟨some []⟩) =
        { primaryDisease := some
            { name := "Unknown", confidence := 0
              description := some "Unable to determine the condition of the leaf." }
          otherDiseases := [] } ∧
      processResult none = { primaryDisease := none, otherDiseases := [] } :=
  ⟨Or.inr rfl, processResult_without_predictions ⟨some []⟩ (Or.inr rfl)⟩

/-- C3: for a non-empty predictions list, the list made of the primary
disease followed by `otherDiseases` is the stable sort of the input by
confidence, descending: it is a permutation of the input, it is ordered by
non-increasing confidence, the entries of any one confidence appear in their
original order, and the caller's array holds after the call what it held
before. -/
theorem processResult_stable_sort (ps : List Prediction) (h : ps ≠ []) :
    ∃ p, (processResult (some ⟨some ps⟩)).primaryDisease = some p ∧
      p :: (processResult (some ⟨some ps⟩)).otherDiseases = stableSortByConfidence ps ∧
      (p :: (processResult (some ⟨some ps⟩)).otherDiseases).Perm ps ∧
      ConfidenceDescending (p :: (processResult (some ⟨some ps⟩)).otherDiseases) ∧
      (∀ c, withConfidence c (p :: (processResult (some ⟨some ps⟩)).otherDiseases) =
        withConfidence c ps) ∧
      predictionsAfter ps = ps := by
  obtain ⟨p, rest, hs⟩ := arraySort_cons_exists ps h
  have hout : p :: (processResult (some ⟨some ps⟩)).otherDiseases =
      arraySort compareConfidence ps := by
    simp [processResult_some_some, hs]
  refine ⟨p, by simp [processResult_some_some, hs], ?_, ?_, ?_, ?_, predictionsAfter_eq ps⟩
  · rw [hout]; exact arraySort_eq_stableSort ps
  · rw [hout]; exact arraySort_perm _ ps
  · rw [hout]; exact arraySort_descending ps
  · intro c; rw [hout]; exact withConfidence_arraySort c ps

/-- Witness of C3 on the sample list. -/
theorem processResult_stable_sort_witness :
    samplePredictions ≠ [] ∧
    ∃ p, (processResult (some ⟨some samplePredictions⟩)).primaryDisease = some p ∧
      p :: (processResult (some ⟨some samplePredictions⟩)).otherDiseases =
        stableSortByConfidence samplePredictions ∧
      (p :: (processResult (some ⟨some samplePredictions⟩)).otherDiseases).Perm
        samplePredictions ∧
      ConfidenceDescending (p :: (processResult (some ⟨some samplePredictions⟩)).otherDiseases) ∧
      (∀ c, withConfidence c (p :: (processResult (some ⟨some samplePredictions⟩)).otherDiseases) =
        withConfidence c samplePredictions) ∧
      predictionsAfter samplePredictions = samplePredictions :=
  ⟨List.cons_ne_nil _ _, processResult_stable_sort samplePredictions (List.cons_ne_nil _ _)⟩

/-- The interpreter on the sample list: the entry of confidence 1/2 first,
then the two entries of confidence 1/4 in their original order. -/
theorem processResult_sample :
    processResult (some ⟨some samplePredictions⟩) =
      { primaryDisease := some { name := "healthy", confidence := 1 / 2, description := none }
        otherDiseases :=
          [ { name := "anthracnose", confidence := 1 / 4, description := none },
            { name := "brown_blight", confidence := 1 / 4, description := none } ] } := by
  rw [processResult_some_some]
  norm_num [samplePredictions, arraySort, insertByCompare, compareConfidence]

/-! ## Lemmas on the ASCII case tables -/

theorem toUpper_toUpper (c : Char) : c.toUpper.toUpper = c.toUpper := by
  by_cases h : 97 ≤ c.toNat ∧ c.toNat ≤ 122
  · have hc : c = Char.ofNat c.toNat := (Char.ofNat_toNat c).symm
    obtain ⟨h1, h2⟩ := h
    generalize c.toNat = n at hc h1 h2
    subst hc
    interval_cases n <;> decide
  · have : c.toUpper = c := by
      unfold Char.toUpper
      simp only [ge_iff_le, h, if_false]
    rw [this, this]

theorem toUpper_ne_underscore (c : Char) (hc : c ≠ '_') : c.toUpper ≠ '_' := by
  by_cases h : 97 ≤ c.toNat ∧ c.toNat ≤ 122
  · have hc' : c = Char.ofNat c.toNat := (Char.ofNat_toNat c).symm
    obtain ⟨h1, h2⟩ := h
    generalize c.toNat = n at hc' h1 h2
    subst hc'
    interval_cases n <;> decide
  · have : c.toUpper = c := by
      unfold Char.toUpper
      simp only [ge_iff_le, h, if_false]
    rw [this]
    exact hc

theorem extendsAscii_asciiUpper : ExtendsAscii asciiUpper :=
  fun _ _ => rfl

theorem upperStable_asciiUpper : UpperStable asciiUpper := by
  refine ⟨by decide, ?_⟩
  intro c hc
  refine ⟨c.toUpper, [], rfl, ?_, ?_⟩
  · simp [asciiUpper, toUpper_toUpper]
  · simpa using (toUpper_ne_underscore c hc).symm

/-! ## Lemmas on `split`, `join` and the capitalization of a word -/

theorem split_ne_nil (sep : Char) (l : List Char) : split sep l ≠ [] := by
  induction l with
  | nil => simp [split]
  | cons c cs ih =>
    simp only [split]
    split
    · simp
    · split <;> simp

theorem split_eq_splitOn (sep : Char) (l : List Char) : split sep l = l.splitOn sep := by
  induction l with
  | nil => simp [split, List.splitOn]
  | cons c cs ih =>
    have hne := split_ne_nil sep cs
    rw [List.splitOn, List.splitOnP_cons, ← List.splitOn, ← ih]
    simp only [split]
    by_cases hc : c = sep
    · simp [hc]
    · simp only [hc, if_false, beq_iff_eq]
      cases hs : split sep cs with
      | nil => exact absurd hs hne
      | cons seg rest => simp

theorem mem_of_mem_split (sep : Char) (l : List Char) :
    ∀ seg ∈ split sep l, ∀ c ∈ seg, c ∈ l ∧ c ≠ sep := by
  induction l with
  | nil =>
    intro seg hseg c hcm
    simp [split] at hseg
    subst hseg
    simp at hcm
  | cons x xs ih =>
    intro seg hseg c hcm
    simp only [split] at hseg
    by_cases hx : x = sep
    · simp only [hx, if_true, List.mem_cons] at hseg
      rcases hseg with rfl | hseg
      · simp at hcm
      · have := ih seg hseg c hcm
        exact ⟨List.mem_cons_of_mem _ this.1, this.2⟩
    · simp only [hx, if_false] at hseg
      cases hs : split sep xs with
      | nil => exact absurd hs (split_ne_nil sep xs)
      | cons s rest =>
        rw [hs] at hseg ih
        simp only [List.mem_cons] at hseg
        rcases hseg with rfl | hseg
        · rcases List.mem_cons.mp hcm with rfl | hcm
          · exact ⟨List.mem_cons_self _ _, hx⟩
          · have := ih s (List.mem_cons_self _ _) c hcm
            exact ⟨List.mem_cons_of_mem _ this.1, this.2⟩
        · have := ih seg (List.mem_cons_of_mem _ hseg) c hcm
          exact ⟨List.mem_cons_of_mem _ this.1, this.2⟩

theorem split_of_not_mem (sep : Char) (l : List Char) (h : sep ∉ l) : split sep l = [l] := by
  induction l with
  | nil => rfl
  | cons c cs ih =>
    have hc : c ≠ sep := fun e => h (e ▸ List.mem_cons_self _ _)
    have hcs : sep ∉ cs := fun e => h (List.mem_cons_of_mem _ e)
    simp [split, hc, ih hcs]

theorem capitalizeWord_eq_segment (up : Char → List Char) (w : List Char) :
    capitalizeWord up w = capitalizeSegment up w := by
  cases w <;> simp [capitalizeWord, capitalizeSegment]

theorem join_eq_intercalate (sep : List Char) (ws : List (List Char)) :
    join sep ws = sep.intercalate ws := by
  induction ws with
  | nil => simp [join, List.intercalate]
  | cons w ws ih =>
    cases ws with
    | nil => simp [join, List.intercalate]
    | cons v vs =>
      simp only [join]
      rw [ih]
      simp [List.intercalate, List.intersperse]

theorem formatLabel_eq_spec (up : Char → List Char) (name : String) :
    formatLabel up name = formatLabelSpec up name := by
  unfold formatLabel formatLabelSpec
  rw [split_eq_splitOn, join_eq_intercalate]
  congr 2
  exact List.map_congr_left fun w _ => capitalizeWord_eq_segment up w

theorem join_cons (sep w : List Char) (ws : List (List Char)) :
    join sep (w :: ws) = w ++ (if ws = [] then [] else sep ++ join sep ws) := by
  cases ws <;> simp [join]

theorem not_mem_join (x : Char) (sep : List Char) (ws : List (List Char))
    (hsep : x ∉ sep) (hws : ∀ w ∈ ws, x ∉ w) : x ∉ join sep ws := by
  induction ws with
  | nil => simp [join]
  | cons w ws ih =>
    have hw : x ∉ w := hws w (List.mem_cons_self _ _)
    have hrest : x ∉ join sep ws := ih fun v hv => hws v (List.mem_cons_of_mem _ hv)
    rw [join_cons]
    split <;> simp [hw, hsep, hrest]

theorem not_mem_capitalizeWord (up : Char → List Char) (hup : UpperStable up) (w : List Char)
    (hw : '_' ∉ w) : '_' ∉ capitalizeWord up w := by
  cases w with
  | nil => simp [capitalizeWord]
  | cons c cs =>
    have hc : c ≠ '_' := fun e => hw (e ▸ List.mem_cons_self _ _)
    have hcs : '_' ∉ cs := fun e => hw (List.mem_cons_of_mem _ e)
    obtain ⟨d, ds, hd, -, hnot⟩ := hup.2 c hc
    simp only [capitalizeWord, List.take_succ_cons, List.take_zero, List.flatMap_cons,
      List.flatMap_nil, List.append_nil, List.drop_succ_cons, List.drop_zero, hd,
      List.mem_append, not_or]
    exact ⟨hnot, hcs⟩

theorem capitalizeWord_append_fixed (up : Char → List Char) (hup : UpperStable up)
    (w tl : List Char) (hw : '_' ∉ w) (htl : tl = [] ∨ ∃ r, tl = ' ' :: r) :
    capitalizeWord up (capitalizeWord up w ++ tl) = capitalizeWord up w ++ tl := by
  cases w with
  | nil =>
    rcases htl with rfl | ⟨r, rfl⟩
    · simp [capitalizeWord]
    · simp [capitalizeWord, hup.1]
  | cons c cs =>
    have hc : c ≠ '_' := fun e => hw (e ▸ List.mem_cons_self _ _)
    obtain ⟨d, ds, hd, hdd, -⟩ := hup.2 c hc
    simp [capitalizeWord, hd, hdd]

theorem formatLabel_idempotent (up : Char → List Char) (hup : UpperStable up) (name : String) :
    formatLabel up (formatLabel up name) = formatLabel up name := by
  have hsegs : ∀ seg ∈ split '_' name.data, '_' ∉ seg := fun seg hseg hmem =>
    (mem_of_mem_split '_' name.data seg hseg '_' hmem).2 rfl
  have hno : '_' ∉ join [' '] ((split '_' name.data).map (capitalizeWord up)) := by
    apply not_mem_join
    · decide
    · intro w hw
      obtain ⟨seg, hseg, rfl⟩ := List.mem_map.mp hw
      exact not_mem_capitalizeWord up hup seg (hsegs seg hseg)
  have hfix : capitalizeWord up (join [' '] ((split '_' name.data).map (capitalizeWord up))) =
      join [' '] ((split '_' name.data).map (capitalizeWord up)) := by
    cases hs : split '_' name.data with
    | nil => exact absurd hs (split_ne_nil _ _)
    | cons s rest =>
      rw [hs] at hsegs
      rw [List.map_cons, join_cons]
      apply capitalizeWord_append_fixed up hup s _ (hsegs s (List.mem_cons_self _ _))
      split
      · exact Or.inl rfl
      · exact Or.inr ⟨_, rfl⟩
  show (⟨join [' '] ((split '_' (formatLabel up name).data).map (capitalizeWord up))⟩ : String) = _
  have hdata : (formatLabel up name).data =
      join [' '] ((split '_' name.data).map (capitalizeWord up)) := rfl
  rw [hdata, split_of_not_mem _ _ hno]
  simp only [List.map_cons, List.map_nil, join, hfix]
  rfl

theorem formatLabel_ascii (up : Char → List Char) (hup : ExtendsAscii up) (name : String)
    (hname : ∀ c ∈ name.data, c.toNat < 128) :
    formatLabel up name = formatLabel asciiUpper name := by
  unfold formatLabel
  congr 2
  apply List.map_congr_left
  intro w hw
  cases w with
  | nil => rfl
  | cons c cs =>
    have hc : c ∈ name.data := (mem_of_mem_split '_' name.data _ hw c (List.mem_cons_self _ _)).1
    simp [capitalizeWord, hup c (hname c hc), asciiUpper]

/-! ## The claims on the label formatter and on `getDiseaseDescription` -/

/-- C6: the label formatter is a total function that equals the
specification (split on underscores, upper-case form of the first character
of each segment with the rest unchanged, join with single spaces), for every
case table of the runtime; on a table that agrees with ASCII it maps
"brown_blight" to "Brown Blight", "healthy" to "Healthy", "red_leaf_spot" to
"Red Leaf Spot" and leaves "Red Leaf Spot" unchanged; and it is idempotent. -/
theorem formatLabel_correct (toUpperCase : Char → List Char) (name : String) :
    formatLabel toUpperCase name = formatLabelSpec toUpperCase name ∧
    (ExtendsAscii toUpperCase →
      formatLabel toUpperCase "brown_blight" = "Brown Blight" ∧
      formatLabel toUpperCase "healthy" = "Healthy" ∧
      formatLabel toUpperCase "red_leaf_spot" = "Red Leaf Spot" ∧
      formatLabel toUpperCase "Red Leaf Spot" = "Red Leaf Spot") ∧
    (UpperStable toUpperCase →
      formatLabel toUpperCase (formatLabel toUpperCase name) = formatLabel toUpperCase name) := by
  refine ⟨formatLabel_eq_spec _ _, fun h => ⟨?_, ?_, ?_, ?_⟩, fun h => formatLabel_idempotent _ h _⟩
  · rw [formatLabel_ascii _ h _ (by decide)]; decide
  · rw [formatLabel_ascii _ h _ (by decide)]; decide
  · rw [formatLabel_ascii _ h _ (by decide)]; decide
  · rw [formatLabel_ascii _ h _ (by decide)]; decide

/-- Witness of C6 on the ASCII table and the identifier "algal_leaf_spot". -/
theorem formatLabel_correct_witness :
    formatLabel asciiUpper "algal_leaf_spot" = "Algal Leaf Spot" ∧
    formatLabel asciiUpper "brown_blight" = "Brown Blight" ∧
    formatLabel asciiUpper (formatLabel asciiUpper "algal_leaf_spot") =
      formatLabel asciiUpper "algal_leaf_spot" :=
  ⟨by decide,
    ((formatLabel_correct asciiUpper "algal_leaf_spot").2.1 extendsAscii_asciiUpper).1,
    (formatLabel_correct asciiUpper "algal_leaf_spot").2.2 upperStable_asciiUpper⟩

theorem descriptionsGet_of_mem (key sentence : String) (h : (key, sentence) ∈ descriptions) :
    descriptionsGet key = some (.string sentence) := by
  simp only [descriptions, List.mem_cons, Prod.mk.injEq, List.mem_singleton, List.not_mem_nil,
    or_false] at h
  rcases h with ⟨rfl, rfl⟩ | ⟨rfl, rfl⟩ | ⟨rfl, rfl⟩ | ⟨rfl, rfl⟩ | ⟨rfl, rfl⟩ <;> decide

/-- What `getDiseaseDescription` does for a disease without a description:
the result depends on the name only; a name whose lower-case form is one of
the five keys gives the sentence of that key; any other name gives the
template around the raw name, unless its lower-case form is a property name
of `Object.prototype`. -/
theorem getDiseaseDescription_without_description (toLowerCase : String → String)
    (disease : Prediction) (h : disease.description = none) :
    getDiseaseDescription toLowerCase disease =
        getDiseaseDescription toLowerCase ⟨disease.name, 0, none⟩ ∧
      (∀ sentence, (toLowerCase disease.name, sentence) ∈ descriptions →
        getDiseaseDescription toLowerCase disease = .string sentence) ∧
      (toLowerCase disease.name ∉ descriptions.map Prod.fst →
        toLowerCase disease.name ∉ objectPrototypeKeys →
        getDiseaseDescription toLowerCase disease =
          .string ("This appears to be a case of " ++ disease.name ++ ".")) := by
  refine ⟨?_, ?_, ?_⟩
  · simp [getDiseaseDescription, h, truthy]
  · intro sentence hmem
    simp [getDiseaseDescription, h, truthy, descriptionsGet_of_mem _ _ hmem]
  · intro hown hproto
    have hlook : descriptions.lookup (toLowerCase disease.name) = none := by
      simp only [descriptions, List.map_cons, List.map_nil, List.mem_cons, List.mem_singleton,
        List.not_mem_nil, or_false, not_or] at hown
      obtain ⟨h1, h2, h3, h4, h5⟩ := hown
      simp [descriptions, List.lookup, beq_eq_false_iff_ne.mpr h1, beq_eq_false_iff_ne.mpr h2,
        beq_eq_false_iff_ne.mpr h3, beq_eq_false_iff_ne.mpr h4, beq_eq_false_iff_ne.mpr h5]
    simp [getDiseaseDescription, h, truthy, descriptionsGet, hlook, hproto, caseOfSentence]

/-- C4, at the failing input: for the name "constructor" without a
description, `descriptions[...]` finds the member inherited from
`Object.prototype`, so the function returns that member, which is not the
templated sentence and not a string at all; the five keys and an ordinary
unknown name behave as the claim says. -/
theorem getDiseaseDescription_constructor :
    getDiseaseDescription asciiLower ⟨"constructor", 9 / 10, none⟩ = .inherited "constructor" ∧
    getDiseaseDescription asciiLower ⟨"constructor", 9 / 10, none⟩ ≠
      .string "This appears to be a case of constructor." ∧
    getDiseaseDescription asciiLower ⟨"Anthracnose", 9 / 10, none⟩ =
      .string "Anthracnose causes dark, sunken lesions on leaves and stems." ∧
    getDiseaseDescription asciiLower ⟨"anthracnose", 9 / 10, none⟩ =
      .string "Anthracnose causes dark, sunken lesions on leaves and stems." ∧
    getDiseaseDescription asciiLower ⟨"mystery_rot", 9 / 10, none⟩ =
      .string "This appears to be a case of mystery_rot." := by
  refine ⟨by decide, by decide, by decide, by decide, by decide⟩

/-- C5, as stated, fails: an empty description is falsy, so the function
falls through to the canned sentence of the name. -/
theorem getDiseaseDescription_empty_description :
    getDiseaseDescription asciiLower ⟨"healthy", 1, some ""⟩ ≠ .string "" ∧
    getDiseaseDescription asciiLower ⟨"healthy", 1, some ""⟩ =
      .string "Your tea leaf appears to be healthy with no signs of disease." := by
  refine ⟨by decide, by decide⟩

/-- C5, amended: for every disease whose description is present and not the
empty string, `getDiseaseDescription` returns exactly that description,
whatever the name and the case table. -/
theorem getDiseaseDescription_verbatim (toLowerCase : String → String) (disease : Prediction)
    (text : String) (h : disease.description = some text) (hne : text ≠ "") :
    getDiseaseDescription toLowerCase disease = .string text := by
  simp [getDiseaseDescription, h, truthy, hne]

/-- Witness of the amended C5: a described disease named like a key. -/
theorem getDiseaseDescription_verbatim_witness :
    (⟨"healthy", 1, some "Custom text."⟩ : Prediction).description = some "Custom text." ∧
    "Custom text." ≠ "" ∧
    getDiseaseDescription asciiLower ⟨"healthy", 1, some "Custom text."⟩ =
      .string "Custom text." :=
  ⟨rfl, by decide,
    getDiseaseDescription_verbatim asciiLower ⟨"healthy", 1, some "Custom text."⟩ "Custom text."
      rfl (by decide)⟩

/-! ## The claims on the failure messages of `handleSubmit` -/

theorem handleSubmitResume_error (e : AxiosError) (s : HomeSys) (p : Pending)
    (rest : List Pending) (h : s.pending = p :: rest) :
    handleSubmitResume (.error e) s =
      { view := { s.view with isLoading := false }
        pending := rest
        navigations := s.navigations
        alerts := s.alerts ++ (handleSubmitCatch e).alert.toList
        console := s.console ++ (handleSubmitCatch e).console } := by
  simp [handleSubmitResume, h]

/-- C7, as stated, fails: a response of status 500 whose body carries the
error field "" makes `handleSubmit` show the generic fallback, not the field. -/
theorem handleSubmitCatch_empty_error_field :
    (handleSubmitCatch
        { response := some { status := 500, data := some { error := some "" } }
          request := true
          message := "Request failed with status code 500" }).alert =
      some "Error processing image. Please try again." ∧
    (handleSubmitCatch
        { response := some { status := 500, data := some { error := some "" } }
          request := true
          message := "Request failed with status code 500" }).alert ≠ some "" := by
  refine ⟨by decide, by decide⟩

/-- C7, amended: when a response was received and its body is not `null`,
the message shown by `handleSubmit` is the `error` field of the body if that
field is present and not the empty string, and the generic fallback
otherwise; the loading flag is cleared and no navigation takes place. -/
theorem handleSubmit_server_error (e : AxiosError) (r : ErrorResponse) (body : ErrorBody)
    (hr : e.response = some r) (hb : r.data = some body) :
    (∀ m, body.error = some m → m ≠ "" → (handleSubmitCatch e).alert = some m) ∧
    (body.error = none ∨ body.error = some "" →
      (handleSubmitCatch e).alert = some "Error processing image. Please try again.") ∧
    (∀ (s : HomeSys) (p : Pending) (rest : List Pending), s.pending = p :: rest →
      (handleSubmitResume (.error e) s).alerts = s.alerts ++ (handleSubmitCatch e).alert.toList ∧
      (handleSubmitResume (.error e) s).navigations = s.navigations ∧
      (handleSubmitResume (.error e) s).view.isLoading = false) := by
  refine ⟨?_, ?_, ?_⟩
  · intro m hm hne
    simp [handleSubmitCatch, hr, hb, hm, orElse, hne]
  · rintro (hm | hm) <;> simp [handleSubmitCatch, hr, hb, hm, orElse, genericErrorMessage]
  · intro s p rest hs
    rw [handleSubmitResume_error e s p rest hs]
    exact ⟨rfl, rfl, rfl⟩

/-- Witness of the amended C7: status 500 with the body `{error: "bad image"}`
shows exactly "bad image". -/
theorem handleSubmit_server_error_witness :
    (handleSubmitCatch
        { response := some { status := 500, data := some { error := some "bad image" } }
          request := true
          message := "Request failed with status code 500" }).alert = some "bad image" :=
  (handleSubmit_server_error
      { response := some { status := 500, data := some { error := some "bad image" } }
        request := true
        message := "Request failed with status code 500" }
      { status := 500, data := some { error := some "bad image" } }
      { error := some "bad image" } rfl rfl).1 "bad image" rfl (by decide)

/-- C8, as stated, fails: for an error with neither a response nor a request
`handleSubmit` shows the generic fallback, which is the message of a server
error without an error field, and not the underlying message. -/
theorem handleSubmitCatch_setup_error_not_raw :
    (handleSubmitCatch { response := none, request := false, message := "Invalid URL" }).alert ≠
      some "Invalid URL" ∧
    (handleSubmitCatch { response := none, request := false, message := "Invalid URL" }).alert =
      (handleSubmitCatch
        { response := some { status := 500, data := some { error := none } }
          request := true
          message := "Request failed with status code 500" }).alert := by
  refine ⟨by decide, by decide⟩

/-- C8, amended: for every failure whose error carries neither a response
nor a request, the message shown by `handleSubmit` is the generic fallback;
the underlying message is written to the console only; the message shown
differs from the fixed message of the branch without a response. -/
theorem handleSubmit_setup_error (e : AxiosError) (hr : e.response = none)
    (hq : e.request = false) :
    (handleSubmitCatch e).alert = some "Error processing image. Please try again." ∧
    (handleSubmitCatch e).console = [.errorUploading, .errorMessage e.message] ∧
    (handleSubmitCatch e).alert ≠
      some "No response from server. Please check if the backend is running." ∧
    (∀ (s : HomeSys) (p : Pending) (rest : List Pending), s.pending = p :: rest →
      (handleSubmitResume (.error e) s).alerts =
        s.alerts ++ ["Error processing image. Please try again."]) := by
  have ha : (handleSubmitCatch e).alert = some "Error processing image. Please try again." := by
    simp [handleSubmitCatch, hr, hq, genericErrorMessage]
  refine ⟨ha, ?_, ?_, ?_⟩
  · simp [handleSubmitCatch, hr, hq]
  · rw [ha]; decide
  · intro s p rest hs
    rw [handleSubmitResume_error e s p rest hs, ha]
    rfl

/-- Witness of the amended C8 on an error raised while the request was set
up. -/
theorem handleSubmit_setup_error_witness :
    (handleSubmitCatch { response := none, request := false, message := "Invalid URL" }).alert =
      some "Error processing image. Please try again." ∧
    (handleSubmitCatch { response := none, request := false, message := "Invalid URL" }).console =
      [.errorUploading, .errorMessage "Invalid URL"] :=
  ⟨(handleSubmit_setup_error ⟨none, false, "Invalid URL"⟩ rfl rfl).1,
    (handleSubmit_setup_error ⟨none, false, "Invalid URL"⟩ rfl rfl).2.1⟩

/-! ## The claim on the submit guard -/

theorem pendingMatchesLoading_step (s : HomeSys) (ev : HomeEvent)
    (h : PendingMatchesLoading s) : PendingMatchesLoading (s.step ev) := by
  unfold PendingMatchesLoading at h ⊢
  cases ev with
  | imageChange file url =>
    cases file <;> simpa [HomeSys.step, handleImageChange] using h
  | submit =>
    simp only [HomeSys.step, clickSubmit]
    split
    · exact h
    · rename_i hd
      simp only [submitDisabled, Bool.or_eq_true, not_or, Bool.not_eq_true] at hd
      cases hi : s.view.selectedImage with
      | none => simp [hi] at hd
      | some image =>
        have hl : s.view.isLoading = false := hd.2
        rw [hl] at h
        simp only [Bool.false_eq_true, if_false] at h
        simp [handleSubmit, hi, h]
  | settle outcome =>
    cases hp : s.pending with
    | nil =>
      have hs : handleSubmitResume outcome s = s := by simp [handleSubmitResume, hp]
      simp only [HomeSys.step, hs]
      exact h
    | cons p rest =>
      have hrest : rest.length = 0 := by
        have hle : (p :: rest).length ≤ 1 := by rw [← hp, h]; split <;> simp
        simpa using hle
      cases outcome <;> simp [HomeSys.step, handleSubmitResume, hp, hrest]

theorem pendingMatchesLoading_run (events : List HomeEvent) (s : HomeSys)
    (h : PendingMatchesLoading s) : PendingMatchesLoading (s.run events) := by
  induction events generalizing s with
  | nil => exact h
  | cons ev evs ih => exact ih (s.step ev) (pendingMatchesLoading_step s ev h)

/-- C9, as stated, fails: with an image selected and `isLoading` true,
`handleSubmit` issues a second request; the state is one the view reaches. -/
theorem handleSubmit_while_loading :
    loadingHome.view.isLoading = true ∧ loadingHome.pending.length = 1 ∧
    (handleSubmit loadingHome).pending.length = 2 ∧ handleSubmit loadingHome ≠ loadingHome := by
  refine ⟨by decide, by decide, by decide, by decide⟩

/-- C9, amended: `handleSubmit` issues no request, performs no navigation and
leaves the state unchanged when no image is selected; the submit button is
disabled when no image is selected or `isLoading` is true, so its activation
does the same in both cases; consequently, under image changes, activations
of the submit button and answers to requests, at most one request is
outstanding. -/
theorem submit_guard (s : HomeSys) :
    (s.view.selectedImage = none → handleSubmit s = s) ∧
    (s.view.selectedImage = none ∨ s.view.isLoading = true → clickSubmit s = s) ∧
    (∀ events : List HomeEvent,
      (HomeSys.initial.run events).pending.length ≤ 1 ∧
      ((HomeSys.initial.run events).view.isLoading = false →
        (HomeSys.initial.run events).pending = [])) := by
  refine ⟨?_, ?_, ?_⟩
  · intro h
    simp [handleSubmit, h]
  · intro h
    have : submitDisabled s.view = true := by
      rcases h with h | h <;> simp [submitDisabled, h]
    simp [clickSubmit, this]
  · intro events
    have := pendingMatchesLoading_run events HomeSys.initial (by
      simp [PendingMatchesLoading, HomeSys.initial])
    unfold PendingMatchesLoading at this
    constructor
    · rw [this]; split <;> simp
    · intro hl
      rw [hl] at this
      simpa using this

/-- Witness of the amended C9 on the capture view with a submission
outstanding. -/
theorem submit_guard_witness :
    (loadingHome.view.selectedImage = none ∨ loadingHome.view.isLoading = true) ∧
    clickSubmit loadingHome = loadingHome ∧
    (handleSubmit HomeSys.initial = HomeSys.initial) :=
  ⟨Or.inr (by decide), (submit_guard loadingHome).2.1 (Or.inr (by decide)),
    (submit_guard HomeSys.initial).1 rfl⟩

/-! ## The claim on the entry guard of the display view -/

theorem resultsReachable_loaded (s : ResultsState) (h : ResultsReachable s) :
    s.loading = false → ∃ r, s.result = some r := by
  induction h with
  | mount => intro h; simp [ResultsState.initial] at h
  | effect location s _ ih =>
    intro hl
    cases location with
    | none => exact ih (by simpa [resultsEffect] using hl)
    | some st =>
      cases hres : st.result with
      | none =>
        have he : resultsEffect (some st) s = (s, some "/") := by simp [resultsEffect, hres]
        rw [he] at hl ⊢
        exact ih hl
      | some r => exact ⟨r, by simp [resultsEffect, hres]⟩

/-- C10: entering the display view with a navigation state that carries no
payload or no result redirects to the capture view "/" and renders the
spinner, before and after the effect, never the diagnosis; and in every
reachable state of the view with `loading` false the result is present, so
that the diagnosis rendered is `processResult` of a present result. -/
theorem results_entry_guard :
    render ResultsState.initial = .spinner ∧
    (∀ location : Option LocationState,
      (location = none ∨ ∃ st, location = some st ∧ st.result = none) →
        (enterResults location).2 = some "/" ∧
        (enterResults location).1 = ResultsState.initial ∧
        render (enterResults location).1 = .spinner) ∧
    (∀ s, ResultsReachable s → s.loading = false →
      ∃ r, s.result = some r ∧ render s = .diagnosis (processResult (some r)) s.imagePreview) ∧
    (∀ s, ResultsReachable s → ∀ view preview, render s = .diagnosis view preview →
      ∃ r, s.result = some r ∧ view = processResult (some r)) := by
  have hinit : render ResultsState.initial = .spinner := by
    simp [render, ResultsState.initial]
  refine ⟨hinit, ?_, ?_, ?_⟩
  · intro location h
    have he : enterResults location = (ResultsState.initial, some "/") := by
      rcases h with rfl | ⟨st, rfl, hst⟩
      · rfl
      · simp [enterResults, resultsEffect, hst]
    rw [he]
    exact ⟨rfl, rfl, hinit⟩
  · intro s hs hl
    obtain ⟨r, hr⟩ := resultsReachable_loaded s hs hl
    exact ⟨r, hr, by simp [render, hl, hr]⟩
  · intro s hs view preview hrender
    cases hl : s.loading with
    | true => simp [render, hl] at hrender
    | false =>
      obtain ⟨r, hr⟩ := resultsReachable_loaded s hs hl
      refine ⟨r, hr, ?_⟩
      simp only [render, hl, Bool.false_eq_true, if_false, Rendered.diagnosis.injEq] at hrender
      rw [← hrender.1, hr]

/-- Witness of C10: entry without a navigation state, and entry with a
state that lacks the result. -/
theorem results_entry_guard_witness :
    (enterResults none).2 = some "/" ∧ render (enterResults none).1 = .spinner ∧
    (enterResults (some { result := none, imagePreview := some "blob:leaf" })).2 = some "/" :=
  ⟨(results_entry_guard.2.1 none (Or.inl rfl)).1,
    (results_entry_guard.2.1 none (Or.inl rfl)).2.2,
    (results_entry_guard.2.1 (some { result := none, imagePreview := some "blob:leaf" })
      (Or.inr ⟨_, rfl, rfl⟩)).1⟩

end TeaLeaf
